import Mathlib

set_option maxHeartbeats 1000000

/-!
Shallow embedding of `velox/exec/LocalPlanner.cpp`: the physical-plan
compilation stage that splits a plan-node tree into pipeline descriptors
(`detail::plan`), computes each pipeline's parallelism ceiling
(`detail::maxDrivers`), wires pipeline boundaries through consumer suppliers
(`detail::makeConsumerSupplier`), and instantiates operator chains
(`DriverFactory::createDriver`).
-/

/-- The enum `core::AggregationNode::Step`. -/
inductive AggStep where
  | part
  | intermediate
  | final
  | single
deriving DecidableEq, Repr

/-- The dynamic type of a plan node, as discriminated by the
`std::dynamic_pointer_cast` chains in the source.  Kind-specific attributes
consulted by the planner are carried as payloads: the aggregation step,
`isPartial()` of top-N / limit / order-by, `isParallelizable()` of values,
and `supportsMultiThreading()` of the table-write insert handle.
`StreamingAggregationNode` is a subclass of `AggregationNode` (the source
tests the derived class before the base class), so it is the `aggregation`
kind with `streaming = true`. -/
inductive NodeKind where
  | filter
  | project
  | values (isParallelizable : Bool)
  | tableScan
  | tableWrite (supportsMultiThreading : Bool)
  | aggregation (step : AggStep) (streaming : Bool)
  | topN (isPart : Bool)
  | limit (isPart : Bool)
  | orderBy (isPart : Bool)
  | localMerge
  | mergeExchange
  | exchange
  | partitionedOutput
  | hashJoin
  | crossJoin
  | mergeJoin
  | localPartition
  | unnest
  | enforceSingleRow
  | assignUniqueId
  | extension
deriving DecidableEq, Repr

/-- A `core::PlanNode`: node id, dynamic kind, the per-node parallelism cap
reported by `Operator::maxDrivers(node)` (an `std::optional<uint32_t>`,
modelled as the node attribute `cap`), and the ordered child sources. -/
inductive PlanNode where
  | mk (nid : Nat) (kind : NodeKind) (cap : Option Nat) (sources : List PlanNode)

mutual

def PlanNode.decEq (a b : PlanNode) : Decidable (a = b) :=
  match a, b with
  | .mk i k c s, .mk j l d t =>
    if h1 : i = j then
      if h2 : k = l then
        if h3 : c = d then
          match PlanNode.decEqList s t with
          | isTrue h4 => isTrue (by rw [h1, h2, h3, h4])
          | isFalse h4 => isFalse (by intro h; injection h; contradiction)
        else isFalse (by intro h; injection h; contradiction)
      else isFalse (by intro h; injection h; contradiction)
    else isFalse (by intro h; injection h; contradiction)

def PlanNode.decEqList (a b : List PlanNode) : Decidable (a = b) :=
  match a, b with
  | [], [] => isTrue rfl
  | [], _ :: _ => isFalse (by intro h; cases h)
  | _ :: _, [] => isFalse (by intro h; cases h)
  | x :: xs, y :: ys =>
    match PlanNode.decEq x y, PlanNode.decEqList xs ys with
    | isTrue h1, isTrue h2 => isTrue (by rw [h1, h2])
    | isFalse h1, _ => isFalse (by intro h; injection h; contradiction)
    | isTrue _, isFalse h2 => isFalse (by intro h; injection h; contradiction)

end

instance : DecidableEq PlanNode := PlanNode.decEq

def PlanNode.nid : PlanNode → Nat
  | .mk i _ _ _ => i

def PlanNode.kind : PlanNode → NodeKind
  | .mk _ k _ _ => k

def PlanNode.cap : PlanNode → Option Nat
  | .mk _ _ c _ => c

def PlanNode.sources : PlanNode → List PlanNode
  | .mk _ _ _ s => s

/-- The value `std::numeric_limits<uint32_t>::max()`, the unbounded sentinel. -/
def UINT32MAX : Nat := 4294967295

namespace detail

/-- The scan of `detail::maxDrivers` as a fold over the node list with the running
minimum `count`; `none` models the fatal `VELOX_CHECK_GT(*result, 0, ...)`
abort. -/
def stepMax (count : Nat) : List PlanNode → Option Nat
  | [] => some count
  | n :: rest =>
    match n.kind with
    | .aggregation step _ =>
      if step = AggStep.final ∨ step = AggStep.single then some 1
      else stepMax count rest
    | .topN isPart => if !isPart then some 1 else stepMax count rest
    | .values isParallelizable =>
      if !isParallelizable then some 1 else stepMax count rest
    | .limit isPart => if !isPart then some 1 else stepMax count rest
    | .orderBy isPart => if !isPart then some 1 else stepMax count rest
    | .localMerge => some 1
    | .mergeExchange => some 1
    | .tableWrite supportsMultiThreading =>
      if !supportsMultiThreading then some 1 else stepMax count rest
    | _ =>
      match n.cap with
      | none => stepMax count rest
      | some r =>
        if r = 0 then none
        else if r = 1 then some 1
        else stepMax (min r count) rest

/-- The function `detail::maxDrivers(planNodes)`: `count` starts at `UINT32MAX`. -/
def maxDrivers (planNodes : List PlanNode) : Option Nat :=
  stepMax UINT32MAX planNodes

end detail

/-- The kinds handled by the dedicated `dynamic_pointer_cast` branches of
`detail::maxDrivers` (everything except the final `else` that consults
`Operator::maxDrivers`). -/
def specialNode (n : PlanNode) : Bool :=
  match n.kind with
  | .aggregation _ _ => true
  | .topN _ => true
  | .values _ => true
  | .limit _ => true
  | .orderBy _ => true
  | .localMerge => true
  | .mergeExchange => true
  | .tableWrite _ => true
  | _ => false

/-- The force-to-1 conditions of the specially handled kinds. -/
def forcesOne (n : PlanNode) : Bool :=
  match n.kind with
  | .aggregation step _ => step == AggStep.final || step == AggStep.single
  | .topN isPart => !isPart
  | .values isParallelizable => !isParallelizable
  | .limit isPart => !isPart
  | .orderBy isPart => !isPart
  | .localMerge => true
  | .mergeExchange => true
  | .tableWrite supportsMultiThreading => !supportsMultiThreading
  | _ => false

/-- The declared per-node caps of the non-special ("remaining") nodes. -/
def declaredCaps (nodes : List PlanNode) : List Nat :=
  (nodes.filter (fun n => !specialNode n)).filterMap PlanNode.cap

/-- Minimum of a list of caps, or the unbounded sentinel for `[]`. -/
def capsMin : List Nat → Nat
  | [] => UINT32MAX
  | c :: rest => rest.foldl Nat.min c

/-- The computation of `maxDrivers` as the claim words it: 1 if any node forces single-threaded
execution or any remaining node declares a cap of 1; otherwise the minimum
of the remaining nodes' declared caps, or the unbounded sentinel if none. -/
def specMaxDrivers (nodes : List PlanNode) : Nat :=
  if nodes.any (fun n => forcesOne n || (!specialNode n && n.cap == some 1))
  then 1
  else capsMin (declaredCaps nodes)

/-- One scan step of `detail::maxDrivers`: either the loop returns
(`Sum.inl` with the returned value, `none` being the fatal check) or it
continues with an updated running minimum (`Sum.inr`). -/
def stepHead (count : Nat) (n : PlanNode) : Sum (Option Nat) Nat :=
  match n.kind with
  | .aggregation step _ =>
    if step = AggStep.final ∨ step = AggStep.single then .inl (some 1)
    else .inr count
  | .topN isPart => if !isPart then .inl (some 1) else .inr count
  | .values isParallelizable =>
    if !isParallelizable then .inl (some 1) else .inr count
  | .limit isPart => if !isPart then .inl (some 1) else .inr count
  | .orderBy isPart => if !isPart then .inl (some 1) else .inr count
  | .localMerge => .inl (some 1)
  | .mergeExchange => .inl (some 1)
  | .tableWrite supportsMultiThreading =>
    if !supportsMultiThreading then .inl (some 1) else .inr count
  | _ =>
    match n.cap with
    | none => .inr count
    | some r =>
      if r = 0 then .inl none
      else if r = 1 then .inl (some 1)
      else .inr (min r count)

/-- The node makes `detail::maxDrivers` return or abort on the spot. -/
def stopsEarly (n : PlanNode) : Bool :=
  forcesOne n || (!specialNode n && (n.cap == some 0 || n.cap == some 1))

/-- The sink kinds `detail::makeConsumerSupplier` can produce, tagged with
the identity they capture: the external terminal callback wrapped in a
`CallbackSink`; a `CallbackSink` enqueueing into the per-driver local merge
source; the `LocalPartition` operator; a `HashBuild` sink; a
`CrossJoinBuild` sink; a `CallbackSink` enqueueing into the merge-join
source keyed by the node's id. -/
inductive SupplierKind where
  | callbackSinkExternal
  | localMergeSink
  | localPartitionOperator (nid : Nat)
  | hashBuild (nid : Nat)
  | crossJoinBuild (nid : Nat)
  | mergeJoinSink (planNodeId : Nat)
deriving DecidableEq, Repr

/-- The overload `detail::makeConsumerSupplier(ConsumerSupplier)`: wraps the external
terminal callback as a `CallbackSink` when present, else null. -/
def makeConsumerSupplierExternal (hasConsumer : Bool) : Option SupplierKind :=
  if hasConsumer then some SupplierKind.callbackSinkExternal else none

/-- The overload `detail::makeConsumerSupplier(planNode)`: dispatch over the parent
node's dynamic kind, with the node id it captures. -/
def makeConsumerSupplier (kind : NodeKind) (nid : Nat) : Option SupplierKind :=
  match kind with
  | .localMerge => some SupplierKind.localMergeSink
  | .localPartition => some (SupplierKind.localPartitionOperator nid)
  | .hashJoin => some (SupplierKind.hashBuild nid)
  | .crossJoin => some (SupplierKind.crossJoinBuild nid)
  | .mergeJoin => some (SupplierKind.mergeJoinSink nid)
  | _ => none

/-- The predicate `detail::mustStartNewPipeline`. -/
def mustStartNewPipeline (kind : NodeKind) (sourceId : Nat) : Bool :=
  match kind with
  | .localMerge => true
  | .localPartition => true
  | _ => sourceId != 0

/-- The structure `DriverFactory` as used by `LocalPlanner.cpp`.  The flag defaults are
modelled from the spec: a freshly created descriptor has
`isInputPipeline = isOutputPipeline = false` until the planner sets them
(the member initializers live in the header, which is not part of this
repository snapshot). -/
structure DriverFactory where
  planNodes : List PlanNode := []
  consumerSupplier : Option SupplierKind := none
  inputDriver : Bool := false
  outputDriver : Bool := false
  maxDrivers : Nat := 0
deriving DecidableEq

namespace detail

/-- In-place update of the factory at index `k` (the source holds a pointer
into the vector; we model it positionally). -/
def modifyIdx : List DriverFactory → Nat → (DriverFactory → DriverFactory) →
    List DriverFactory
  | [], _, _ => []
  | f :: fs, 0, g => g f :: fs
  | f :: fs, Nat.succ k, g => f :: modifyIdx fs k g

/-- Update of `driverFactories->back()`. -/
def modifyLast (fs : List DriverFactory) (g : DriverFactory → DriverFactory) :
    List DriverFactory :=
  modifyIdx fs (fs.length - 1) g

mutual

/-- The recursion `detail::plan`: `cur` is the index of the active descriptor inside `fs`
(`currentPlanNodes` in the source, a pointer into one factory's node list;
`none` forces creation of a new descriptor carrying `consumerSupplier`). -/
def plan (node : PlanNode) (cur : Option Nat)
    (consumerSupplier : Option SupplierKind) (fs : List DriverFactory) :
    List DriverFactory :=
  match node with
  | .mk nid kind cap srcs =>
    let fs1 := match cur with
      | none => fs ++ [{ consumerSupplier := consumerSupplier }]
      | some _ => fs
    let curIdx := match cur with
      | none => fs.length
      | some k => k
    let fs2 :=
      if srcs.isEmpty then
        modifyLast fs1 (fun f => { f with inputDriver := true })
      else
        planSources kind nid srcs 0 curIdx fs1
    modifyIdx fs2 curIdx
      (fun f => { f with planNodes := f.planNodes ++ [PlanNode.mk nid kind cap srcs] })

/-- The loop of `detail::plan` over `planNode->sources()`: child `i` keeps
the parent's descriptor unless the boundary policy forces a new one, and is
wired with the consumer supplier derived from the parent. -/
def planSources (pkind : NodeKind) (pid : Nat) (srcs : List PlanNode) (i : Nat)
    (curIdx : Nat) (fs : List DriverFactory) : List DriverFactory :=
  match srcs with
  | [] => fs
  | s :: rest =>
    let fs1 := plan s
      (if mustStartNewPipeline pkind i then none else some curIdx)
      (makeConsumerSupplier pkind pid) fs
    planSources pkind pid rest (i + 1) curIdx fs1

end

end detail

/-- The annotation loop of `LocalPlanner::plan`
(`factory->maxDrivers = detail::maxDrivers(factory->planNodes)`); `none`
propagates the fatal zero-cap check. -/
def annotateMaxDrivers : List DriverFactory → Option (List DriverFactory)
  | [] => some []
  | f :: rest =>
    match detail.maxDrivers f.planNodes with
    | none => none
    | some m => (annotateMaxDrivers rest).map (fun r => { f with maxDrivers := m } :: r)

/-- One step of the annotation loop: store the computed ceiling (0 stands
for the never-taken fatal branch when mapped over a successful run). -/
def annotApply (f : DriverFactory) : DriverFactory :=
  { f with maxDrivers := (detail.maxDrivers f.planNodes).getD 0 }

namespace LocalPlanner

/-- The entry point `LocalPlanner::plan`: run `detail::plan` from scratch with the external
terminal supplier, mark descriptor 0 as the output pipeline, then annotate
every descriptor with its parallelism ceiling. -/
def plan (planNode : PlanNode) (hasConsumer : Bool) :
    Option (List DriverFactory) :=
  let fs := detail.plan planNode none (makeConsumerSupplierExternal hasConsumer) []
  let fs1 := detail.modifyIdx fs 0 (fun f => { f with outputDriver := true })
  annotateMaxDrivers fs1

end LocalPlanner

/-- The descriptor `detail::plan` creates when called with a null
`currentPlanNodes` pointer, before anything is appended to it. -/
def initDescriptor (c : Option SupplierKind) : DriverFactory :=
  { consumerSupplier := c }

mutual

/-- The chain of nodes that a call of `detail::plan` on `t` appends to the
active descriptor: the spines of its non-boundary children (only child 0
can be one), then `t` itself. -/
def spineNodes : PlanNode → List PlanNode
  | .mk nid kind cap srcs =>
    spineList kind srcs 0 ++ [PlanNode.mk nid kind cap srcs]

/-- Spine contribution of a source list starting at child index `i`. -/
def spineList (pkind : NodeKind) : List PlanNode → Nat → List PlanNode
  | [], _ => []
  | s :: rest, i =>
    (if mustStartNewPipeline pkind i then [] else spineNodes s)
      ++ spineList pkind rest (i + 1)

end

mutual

/-- Whether the call of `detail::plan` on `t` marks the active descriptor
as an input pipeline (some node on its spine has no sources). -/
def hasInputLeaf : PlanNode → Bool
  | .mk _ kind _ srcs =>
    if srcs.isEmpty then true else inputLeafList kind srcs 0

def inputLeafList (pkind : NodeKind) : List PlanNode → Nat → Bool
  | [], _ => false
  | s :: rest, i =>
    ((!mustStartNewPipeline pkind i) && hasInputLeaf s)
      || inputLeafList pkind rest (i + 1)

end

/-- The finished descriptor that a `detail::plan` call on `t` with a null
current pointer leaves at the position where it was created. -/
def freshDescriptor (t : PlanNode) (c : Option SupplierKind) : DriverFactory :=
  { planNodes := spineNodes t, consumerSupplier := c,
    inputDriver := hasInputLeaf t }

/-- How a `detail::plan` call on `t` changes the active descriptor it was
handed: it appends `t`'s spine and accumulates the input flag. -/
def extendDescriptor (F : DriverFactory) (t : PlanNode) : DriverFactory :=
  { F with planNodes := F.planNodes ++ spineNodes t,
           inputDriver := F.inputDriver || hasInputLeaf t }

mutual

/-- The descriptors appended after the active one by a `detail::plan` call
on `t`: one finished descriptor per boundary child, wired with the consumer
supplier derived from its parent, in depth-first order. -/
def branchDescriptors : PlanNode → List DriverFactory
  | .mk nid kind _ srcs => branchList kind nid srcs 0

def branchList (pkind : NodeKind) (pid : Nat) :
    List PlanNode → Nat → List DriverFactory
  | [], _ => []
  | s :: rest, i =>
    (if mustStartNewPipeline pkind i
     then freshDescriptor s (makeConsumerSupplier pkind pid) :: branchDescriptors s
     else branchDescriptors s)
      ++ branchList pkind pid rest (i + 1)

end

mutual

/-- Number of boundary-forcing edges (parent, child-index) in the tree. -/
def boundaryEdges : PlanNode → Nat
  | .mk _ kind _ srcs => boundaryEdgesList kind srcs 0

def boundaryEdgesList (pkind : NodeKind) : List PlanNode → Nat → Nat
  | [], _ => 0
  | s :: rest, i =>
    (if mustStartNewPipeline pkind i then 1 else 0) + boundaryEdges s
      + boundaryEdgesList pkind rest (i + 1)

end

mutual

/-- All nodes of a plan tree. -/
def treeNodes : PlanNode → List PlanNode
  | .mk nid kind cap srcs => PlanNode.mk nid kind cap srcs :: treeNodesList srcs

def treeNodesList : List PlanNode → List PlanNode
  | [] => []
  | s :: rest => treeNodes s ++ treeNodesList rest

end

/-- The construction context of one driver (`DriverCtx`). -/
structure DriverCtx where
  pipelineId : Nat
  driverId : Nat
deriving DecidableEq, Repr

/-- The operators `DriverFactory::createDriver` constructs, tagged with the
node identities/attributes they are built from. -/
inductive OperKind where
  | filterProject (filterId : Option Nat) (projectId : Option Nat)
  | valuesOp (nid : Nat)
  | tableScanOp (nid : Nat)
  | tableWriterOp (nid : Nat)
  | mergeExchangeOp (nid : Nat)
  | exchangeOp (nid : Nat) (hasClient : Bool)
  | partitionedOutputOp (nid : Nat)
  | hashProbeOp (nid : Nat)
  | crossJoinProbeOp (nid : Nat)
  | streamingAggregationOp (nid : Nat)
  | hashAggregationOp (nid : Nat)
  | topNOp (nid : Nat)
  | limitOp (nid : Nat)
  | orderByOp (nid : Nat)
  | localMergeOp (nid : Nat) (numSources : Nat)
  | mergeJoinOp (nid : Nat)
  | localExchangeSourceOp (nid : Nat) (driverId : Nat)
  | unnestOp (nid : Nat)
  | enforceSingleRowOp (nid : Nat)
  | assignUniqueIdOp (nid : Nat)
  | extensionOp (nid : Nat)
  | callbackSinkOp (s : SupplierKind)
deriving DecidableEq, Repr

/-- One constructed operator: the identifier passed to its constructor and
what was constructed. -/
structure Operator where
  opid : Nat
  kind : OperKind
deriving DecidableEq, Repr

/-- The operator-construction loop of `DriverFactory::createDriver`:
`nodes` is the remaining suffix of `planNodes`, `i` its absolute index in
the original list, `ops` the operators built so far.  Each branch passes
`id = operators.size()` — except the merge-exchange branch, which passes
the loop index `i`, exactly as the source does. -/
def buildOps (ctx : DriverCtx) (hasExchangeClient : Bool)
    (numDrivers : Nat → Nat) :
    List PlanNode → Nat → List Operator → List Operator
  | [], _, ops => ops
  | .mk nid .filter _ _ :: .mk nid2 .project _ _ :: rest2, i, ops =>
    buildOps ctx hasExchangeClient numDrivers rest2 (i + 2)
      (ops ++ [⟨ops.length, .filterProject (some nid) (some nid2)⟩])
  | .mk nid .filter _ _ :: rest, i, ops =>
    buildOps ctx hasExchangeClient numDrivers rest (i + 1)
      (ops ++ [⟨ops.length, .filterProject (some nid) none⟩])
  | .mk nid .project _ _ :: rest, i, ops =>
    buildOps ctx hasExchangeClient numDrivers rest (i + 1)
      (ops ++ [⟨ops.length, .filterProject none (some nid)⟩])
  | .mk nid (.values _) _ _ :: rest, i, ops =>
    buildOps ctx hasExchangeClient numDrivers rest (i + 1)
      (ops ++ [⟨ops.length, .valuesOp nid⟩])
  | .mk nid .tableScan _ _ :: rest, i, ops =>
    buildOps ctx hasExchangeClient numDrivers rest (i + 1)
      (ops ++ [⟨ops.length, .tableScanOp nid⟩])
  | .mk nid (.tableWrite _) _ _ :: rest, i, ops =>
    buildOps ctx hasExchangeClient numDrivers rest (i + 1)
      (ops ++ [⟨ops.length, .tableWriterOp nid⟩])
  | .mk nid .mergeExchange _ _ :: rest, i, ops =>
    buildOps ctx hasExchangeClient numDrivers rest (i + 1)
      (ops ++ [⟨i, .mergeExchangeOp nid⟩])
  | .mk nid .exchange _ _ :: rest, i, ops =>
    buildOps ctx hasExchangeClient numDrivers rest (i + 1)
      (ops ++ [⟨ops.length, .exchangeOp nid hasExchangeClient⟩])
  | .mk nid .partitionedOutput _ _ :: rest, i, ops =>
    buildOps ctx hasExchangeClient numDrivers rest (i + 1)
      (ops ++ [⟨ops.length, .partitionedOutputOp nid⟩])
  | .mk nid .hashJoin _ _ :: rest, i, ops =>
    buildOps ctx hasExchangeClient numDrivers rest (i + 1)
      (ops ++ [⟨ops.length, .hashProbeOp nid⟩])
  | .mk nid .crossJoin _ _ :: rest, i, ops =>
    buildOps ctx hasExchangeClient numDrivers rest (i + 1)
      (ops ++ [⟨ops.length, .crossJoinProbeOp nid⟩])
  | .mk nid (.aggregation _ true) _ _ :: rest, i, ops =>
    buildOps ctx hasExchangeClient numDrivers rest (i + 1)
      (ops ++ [⟨ops.length, .streamingAggregationOp nid⟩])
  | .mk nid (.aggregation _ false) _ _ :: rest, i, ops =>
    buildOps ctx hasExchangeClient numDrivers rest (i + 1)
      (ops ++ [⟨ops.length, .hashAggregationOp nid⟩])
  | .mk nid (.topN _) _ _ :: rest, i, ops =>
    buildOps ctx hasExchangeClient numDrivers rest (i + 1)
      (ops ++ [⟨ops.length, .topNOp nid⟩])
  | .mk nid (.limit _) _ _ :: rest, i, ops =>
    buildOps ctx hasExchangeClient numDrivers rest (i + 1)
      (ops ++ [⟨ops.length, .limitOp nid⟩])
  | .mk nid (.orderBy _) _ _ :: rest, i, ops =>
    buildOps ctx hasExchangeClient numDrivers rest (i + 1)
      (ops ++ [⟨ops.length, .orderByOp nid⟩])
  | .mk nid .localMerge _ _ :: rest, i, ops =>
    buildOps ctx hasExchangeClient numDrivers rest (i + 1)
      (ops ++ [⟨ops.length, .localMergeOp nid (numDrivers (ctx.pipelineId + 1))⟩])
  | .mk nid .mergeJoin _ _ :: rest, i, ops =>
    buildOps ctx hasExchangeClient numDrivers rest (i + 1)
      (ops ++ [⟨ops.length, .mergeJoinOp nid⟩])
  | .mk nid .localPartition _ _ :: rest, i, ops =>
    buildOps ctx hasExchangeClient numDrivers rest (i + 1)
      (ops ++ [⟨ops.length, .localExchangeSourceOp nid ctx.driverId⟩])
  | .mk nid .unnest _ _ :: rest, i, ops =>
    buildOps ctx hasExchangeClient numDrivers rest (i + 1)
      (ops ++ [⟨ops.length, .unnestOp nid⟩])
  | .mk nid .enforceSingleRow _ _ :: rest, i, ops =>
    buildOps ctx hasExchangeClient numDrivers rest (i + 1)
      (ops ++ [⟨ops.length, .enforceSingleRowOp nid⟩])
  | .mk nid .assignUniqueId _ _ :: rest, i, ops =>
    buildOps ctx hasExchangeClient numDrivers rest (i + 1)
      (ops ++ [⟨ops.length, .assignUniqueIdOp nid⟩])
  | .mk nid .extension _ _ :: rest, i, ops =>
    buildOps ctx hasExchangeClient numDrivers rest (i + 1)
      (ops ++ [⟨ops.length, .extensionOp nid⟩])

/-- The method `DriverFactory::createDriver`: build one operator per node (with
filter-project fusion), then append the consumer sink, constructed with
identifier `operators.size()`, when the descriptor has a supplier. -/
def DriverFactory.createDriver (f : DriverFactory) (ctx : DriverCtx)
    (hasExchangeClient : Bool) (numDrivers : Nat → Nat) : List Operator :=
  let operators := buildOps ctx hasExchangeClient numDrivers f.planNodes 0 []
  match f.consumerSupplier with
  | some s => operators ++ [⟨operators.length, .callbackSinkOp s⟩]
  | none => operators

/-- Fixture: a parallelizable values leaf, id 1. -/
def exValues1 : PlanNode := .mk 1 (.values true) none []

/-- Fixture: a parallelizable values leaf, id 2. -/
def exValues2 : PlanNode := .mk 2 (.values true) none []

/-- Fixture: a local-merge over two values leaves. -/
def exTreeLM : PlanNode := .mk 0 .localMerge none [exValues1, exValues2]

/-- Fixture: a table-scan leaf, id 31. -/
def exScanA : PlanNode := .mk 31 .tableScan none []

/-- Fixture: a table-scan leaf, id 32. -/
def exScanB : PlanNode := .mk 32 .tableScan none []

/-- Fixture: a hash join probing scan 31 with build side scan 32. -/
def exTreeJoin : PlanNode := .mk 30 .hashJoin none [exScanA, exScanB]

/-- Fixture: the descriptors compiled from `exTreeLM`. -/
def exOutLM : List DriverFactory := (LocalPlanner.plan exTreeLM false).getD []

/-- Fixture: the descriptors compiled from `exTreeJoin`. -/
def exOutJoin : List DriverFactory := (LocalPlanner.plan exTreeJoin true).getD []

/-- Fixture: a table-scan leaf with declared cap 5. -/
def exScanCap5 : PlanNode := .mk 0 .tableScan (some 5) []

/-- Fixture: a filter node with declared cap 3. -/
def exFilterCap3 : PlanNode := .mk 1 .filter (some 3) []

/-- Fixture: a final aggregation. -/
def exAggFinal : PlanNode := .mk 2 (.aggregation AggStep.final false) none []

/-- Fixture: a table-scan leaf whose declared cap is 0. -/
def exScanCap0 : PlanNode := .mk 3 .tableScan (some 0) []

/-- Fixture: a partial top-N that declares cap 7. -/
def exTopNPartCap7 : PlanNode := .mk 4 (.topN true) (some 7) []

section MaxDriversLemmas

theorem stepMax_cons (count : Nat) (n : PlanNode) (l : List PlanNode) :
    detail.stepMax count (n :: l) =
      Sum.elim id (fun c2 => detail.stepMax c2 l) (stepHead count n) := by
  obtain ⟨i, k, c, s⟩ := n
  cases c <;> cases k <;>
    simp only [detail.stepMax, stepHead, PlanNode.kind, PlanNode.cap] <;>
    (try split) <;> (try split) <;> simp

theorem stepHead_forcing (count : Nat) (n : PlanNode) (h : forcesOne n = true) :
    stepHead count n = .inl (some 1) := by
  obtain ⟨i, k, c, s⟩ := n
  cases k <;> simp_all [forcesOne, stepHead, PlanNode.kind]

theorem stepHead_special (count : Nat) (n : PlanNode)
    (h1 : specialNode n = true) (h2 : forcesOne n = false) :
    stepHead count n = .inr count := by
  obtain ⟨i, k, c, s⟩ := n
  cases k <;> simp_all [forcesOne, specialNode, stepHead, PlanNode.kind]

theorem nonspecial_not_forcing (n : PlanNode) (h : specialNode n = false) :
    forcesOne n = false := by
  obtain ⟨i, k, c, s⟩ := n
  cases k <;> simp_all [forcesOne, specialNode, PlanNode.kind]

theorem stepHead_nonspecial (count : Nat) (n : PlanNode) (h : specialNode n = false) :
    stepHead count n =
      match n.cap with
      | none => .inr count
      | some r =>
        if r = 0 then .inl none
        else if r = 1 then .inl (some 1)
        else .inr (min r count) := by
  obtain ⟨i, k, c, s⟩ := n
  cases k <;> simp_all [specialNode, stepHead, PlanNode.kind]

theorem declaredCaps_cons_special (n : PlanNode) (rest : List PlanNode)
    (h : specialNode n = true) :
    declaredCaps (n :: rest) = declaredCaps rest := by
  simp [declaredCaps, List.filter_cons, h]

theorem declaredCaps_cons_none (n : PlanNode) (rest : List PlanNode)
    (h1 : specialNode n = false) (h2 : n.cap = none) :
    declaredCaps (n :: rest) = declaredCaps rest := by
  simp [declaredCaps, List.filter_cons, List.filterMap_cons, h1, h2]

theorem declaredCaps_cons_some (n : PlanNode) (rest : List PlanNode) (r : Nat)
    (h1 : specialNode n = false) (h2 : n.cap = some r) :
    declaredCaps (n :: rest) = r :: declaredCaps rest := by
  simp [declaredCaps, List.filter_cons, List.filterMap_cons, h1, h2]

theorem stepMax_eq_spec (nodes : List PlanNode) :
    ∀ count : Nat,
      (∀ n ∈ nodes, specialNode n = false → ∀ r, n.cap = some r → 1 ≤ r) →
      detail.stepMax count nodes =
        some (if nodes.any
                (fun n => forcesOne n || (!specialNode n && n.cap == some 1))
              then 1
              else (declaredCaps nodes).foldl Nat.min count) := by
  induction nodes with
  | nil => intro count _; simp [detail.stepMax, declaredCaps]
  | cons n rest ih =>
    intro count hvalid
    have hrest : ∀ m ∈ rest, specialNode m = false → ∀ r, m.cap = some r → 1 ≤ r :=
      fun m hm => hvalid m (List.mem_cons_of_mem _ hm)
    rw [stepMax_cons, List.any_cons]
    by_cases hf : forcesOne n = true
    · rw [stepHead_forcing count n hf]
      simp [hf]
    · have hf2 : forcesOne n = false := by simpa using hf
      by_cases hs : specialNode n = true
      · rw [stepHead_special count n hs hf2]
        simp only [Sum.elim_inr, ih count hrest, declaredCaps_cons_special n rest hs,
          hf2, hs]
        simp
      · have hs2 : specialNode n = false := by simpa using hs
        rw [stepHead_nonspecial count n hs2]
        cases hc : n.cap with
        | none =>
          simp only [Sum.elim_inr, ih count hrest, declaredCaps_cons_none n rest hs2 hc,
            hf2, hs2, hc]
          simp
        | some r =>
          have hr : 1 ≤ r := hvalid n (List.mem_cons_self n rest) hs2 r hc
          by_cases hr1 : r = 1
          · subst hr1
            simp [hc, hs2]
          · have hr0 : ¬ r = 0 := by omega
            simp only [hr0, hr1, if_false, Sum.elim_inr]
            rw [ih (min r count) hrest,
              declaredCaps_cons_some n rest r hs2 hc]
            simp only [hf2, hs2, hc, List.foldl_cons]
            have : min count r = min r count := Nat.min_comm count r
            simp [hr1, this]

theorem foldl_min_from_sentinel (caps : List Nat) (h : ∀ x ∈ caps, x ≤ UINT32MAX) :
    caps.foldl Nat.min UINT32MAX = capsMin caps := by
  cases caps with
  | nil => rfl
  | cons c rest =>
    have hc : c ≤ UINT32MAX := h c (List.mem_cons_self c rest)
    simp only [List.foldl_cons, capsMin]
    have : Nat.min UINT32MAX c = c := Nat.min_eq_right hc
    rw [this]

theorem mem_declaredCaps (nodes : List PlanNode) (x : Nat)
    (hx : x ∈ declaredCaps nodes) :
    ∃ n ∈ nodes, specialNode n = false ∧ n.cap = some x := by
  simp only [declaredCaps, List.mem_filterMap, List.mem_filter] at hx
  obtain ⟨n, ⟨hn, hns⟩, hcap⟩ := hx
  exact ⟨n, hn, by simpa using hns, hcap⟩

theorem stepMax_ge_one (nodes : List PlanNode) :
    ∀ count r : Nat, 1 ≤ count → detail.stepMax count nodes = some r → 1 ≤ r := by
  induction nodes with
  | nil =>
    intro count r hc h
    simp [detail.stepMax] at h
    omega
  | cons n rest ih =>
    intro count r hc h
    rw [stepMax_cons] at h
    cases hh : stepHead count n with
    | inl v =>
      rw [hh] at h
      simp at h
      subst h
      obtain ⟨i, k, c, s⟩ := n
      cases c <;> cases k <;>
        simp only [stepHead, PlanNode.kind, PlanNode.cap] at hh <;>
        (try split at hh) <;> (try split at hh) <;> simp_all
    | inr c2 =>
      rw [hh] at h
      simp at h
      refine ih c2 r ?_ h
      obtain ⟨i, k, c, s⟩ := n
      cases c <;> cases k <;>
        simp only [stepHead, PlanNode.kind, PlanNode.cap] at hh <;>
        (try split at hh) <;> (try split at hh) <;> simp_all <;> omega

theorem stepHead_not_stopping (count : Nat) (n : PlanNode)
    (h : stopsEarly n = false) :
    ∃ c2, stepHead count n = .inr c2 := by
  simp only [stopsEarly, Bool.or_eq_false_iff, Bool.and_eq_false_iff] at h
  obtain ⟨hf, hrest⟩ := h
  by_cases hs : specialNode n = true
  · exact ⟨count, stepHead_special count n hs hf⟩
  · have hs2 : specialNode n = false := by simpa using hs
    rw [stepHead_nonspecial count n hs2]
    rcases hrest with hns | hcap
    · simp [hs2] at hns
    · simp only [Bool.or_eq_false_iff, beq_eq_false_iff_ne] at hcap
      obtain ⟨h0, h1⟩ := hcap
      cases hc : n.cap with
      | none => exact ⟨count, rfl⟩
      | some r =>
        rw [hc] at h0 h1
        have hr0 : ¬ r = 0 := fun h => h0 (by rw [h])
        have hr1 : ¬ r = 1 := fun h => h1 (by rw [h])
        exact ⟨min r count, by simp [hr0, hr1]⟩

theorem stepMax_hits_zero (pre : List PlanNode) :
    ∀ count, (∀ m ∈ pre, stopsEarly m = false) →
      ∀ (z : PlanNode) (post : List PlanNode), specialNode z = false →
        z.cap = some 0 →
        detail.stepMax count (pre ++ z :: post) = none := by
  induction pre with
  | nil =>
    intro count _ z post hz hcap
    rw [List.nil_append, stepMax_cons, stepHead_nonspecial count z hz, hcap]
    simp
  | cons m pre ih =>
    intro count hm z post hz hcap
    obtain ⟨c2, hc2⟩ := stepHead_not_stopping count m (hm m (List.mem_cons_self m pre))
    rw [List.cons_append, stepMax_cons, hc2]
    simpa using ih c2 (fun x hx => hm x (List.mem_cons_of_mem _ hx)) z post hz hcap

theorem stepMax_skip_special (n : PlanNode)
    (h1 : specialNode n = true) (h2 : forcesOne n = false)
    (xs : List PlanNode) :
    ∀ (count : Nat) (ys : List PlanNode),
      detail.stepMax count (xs ++ n :: ys) = detail.stepMax count (xs ++ ys) := by
  induction xs with
  | nil =>
    intro count ys
    rw [List.nil_append, List.nil_append, stepMax_cons, stepHead_special count n h1 h2]
    simp
  | cons x xs ih =>
    intro count ys
    rw [List.cons_append, List.cons_append, stepMax_cons, stepMax_cons]
    cases hh : stepHead count x with
    | inl v => simp
    | inr c2 => simp [ih]

end MaxDriversLemmas

section PlanLemmas

theorem modifyIdx_middle (fs : List DriverFactory) (F : DriverFactory)
    (tail : List DriverFactory) (g : DriverFactory → DriverFactory) :
    detail.modifyIdx (fs ++ F :: tail) fs.length g = fs ++ g F :: tail := by
  induction fs with
  | nil => rfl
  | cons f fs ih => simpa [detail.modifyIdx] using ih

theorem modifyLast_concat (fs : List DriverFactory) (F : DriverFactory)
    (g : DriverFactory → DriverFactory) :
    detail.modifyLast (fs ++ [F]) g = fs ++ [g F] := by
  have h : (fs ++ [F]).length - 1 = fs.length := by simp
  rw [detail.modifyLast, h]
  exact modifyIdx_middle fs F [] g

theorem mustStartNewPipeline_false_idx (pkind : NodeKind) (i : Nat)
    (h : mustStartNewPipeline pkind i = false) : i = 0 := by
  cases pkind <;> simp_all [mustStartNewPipeline]

theorem extendDescriptor_init (c : Option SupplierKind) (t : PlanNode) :
    extendDescriptor (initDescriptor c) t = freshDescriptor t c := rfl

theorem plan_none (node : PlanNode) (c : Option SupplierKind)
    (fs : List DriverFactory) :
    detail.plan node none c fs =
      detail.plan node (some fs.length) c (fs ++ [initDescriptor c]) := by
  cases node
  rfl

mutual

theorem plan_char (node : PlanNode) (c : Option SupplierKind)
    (fs : List DriverFactory) (F : DriverFactory) :
    detail.plan node (some fs.length) c (fs ++ [F]) =
      fs ++ extendDescriptor F node :: branchDescriptors node := by
  cases node with
  | mk nid kind cap srcs =>
    cases srcs with
    | nil =>
      simp [detail.plan, modifyLast_concat, modifyIdx_middle, extendDescriptor,
        spineNodes, spineList, hasInputLeaf, branchDescriptors, branchList]
    | cons s rest =>
      have hchar := planSources_char kind nid (s :: rest) 0 fs F [] (Or.inl rfl)
      simp only [detail.plan, List.isEmpty_cons, Bool.false_eq_true, if_false]
      rw [hchar]
      simp only [List.nil_append]
      rw [modifyIdx_middle]
      simp [extendDescriptor, spineNodes, hasInputLeaf, branchDescriptors,
        List.append_assoc]

theorem planSources_char (pkind : NodeKind) (pid : Nat) (srcs : List PlanNode)
    (i : Nat) (fs : List DriverFactory) (F : DriverFactory)
    (tail : List DriverFactory) (h : tail = [] ∨ 1 ≤ i) :
    detail.planSources pkind pid srcs i fs.length (fs ++ F :: tail) =
      fs ++ { F with planNodes := F.planNodes ++ spineList pkind srcs i,
                     inputDriver := F.inputDriver || inputLeafList pkind srcs i }
        :: (tail ++ branchList pkind pid srcs i) := by
  cases srcs with
  | nil => simp [detail.planSources, spineList, inputLeafList, branchList]
  | cons s rest =>
    by_cases hb : mustStartNewPipeline pkind i = true
    · have h1 : detail.plan s none (makeConsumerSupplier pkind pid)
          (fs ++ F :: tail) =
          fs ++ F :: (tail ++ freshDescriptor s (makeConsumerSupplier pkind pid)
            :: branchDescriptors s) := by
        rw [plan_none, plan_char]
        simp [extendDescriptor_init]
      simp only [detail.planSources, hb, if_true]
      rw [h1, planSources_char pkind pid rest (i + 1) fs F
        (tail ++ freshDescriptor s (makeConsumerSupplier pkind pid)
          :: branchDescriptors s) (Or.inr (by omega))]
      simp [spineList, inputLeafList, branchList, hb, List.append_assoc]
    · have hb2 : mustStartNewPipeline pkind i = false := by simpa using hb
      have hi : i = 0 := mustStartNewPipeline_false_idx pkind i hb2
      have ht : tail = [] := by
        rcases h with h | h
        · exact h
        · omega
      subst hi
      subst ht
      simp only [detail.planSources, hb2, Bool.false_eq_true, if_false]
      rw [plan_char s (makeConsumerSupplier pkind pid) fs F,
        planSources_char pkind pid rest 1 fs (extendDescriptor F s)
          (branchDescriptors s) (Or.inr le_rfl)]
      simp [spineList, inputLeafList, branchList, hb2, extendDescriptor,
        List.append_assoc, Bool.or_assoc]

end

theorem detail_plan_top (root : PlanNode) (c : Option SupplierKind) :
    detail.plan root none c [] =
      freshDescriptor root c :: branchDescriptors root := by
  rw [plan_none root c []]
  have h := plan_char root c [] (initDescriptor c)
  simpa [extendDescriptor_init] using h

theorem annotate_eq_map (fs : List DriverFactory) :
    ∀ out, annotateMaxDrivers fs = some out →
      out = fs.map (fun f =>
        { f with maxDrivers := (detail.maxDrivers f.planNodes).getD 0 }) := by
  induction fs with
  | nil =>
    intro out h
    simp [annotateMaxDrivers] at h
    subst h
    rfl
  | cons f rest ih =>
    intro out h
    cases hm : detail.maxDrivers f.planNodes with
    | none => simp [annotateMaxDrivers, hm] at h
    | some m =>
      simp only [annotateMaxDrivers, hm, Option.map_eq_some'] at h
      obtain ⟨r, hr, hout⟩ := h
      rw [← hout, ih r hr]
      simp [hm]

theorem localPlanner_plan_eq (root : PlanNode) (hc : Bool)
    (out : List DriverFactory) (h : LocalPlanner.plan root hc = some out) :
    out = ({ freshDescriptor root (makeConsumerSupplierExternal hc) with
              outputDriver := true } :: branchDescriptors root).map annotApply := by
  rw [LocalPlanner.plan, detail_plan_top] at h
  simp only [detail.modifyIdx] at h
  exact annotate_eq_map _ out h

theorem mustStartNewPipeline_pos (pkind : NodeKind) (i : Nat) (h : 1 ≤ i) :
    mustStartNewPipeline pkind i = true := by
  cases pkind <;> simp [mustStartNewPipeline] <;> omega

theorem spineList_tail_nil (pkind : NodeKind) (srcs : List PlanNode) :
    ∀ i, 1 ≤ i →
      spineList pkind srcs i = [] ∧ inputLeafList pkind srcs i = false := by
  induction srcs with
  | nil => intro i _; exact ⟨rfl, rfl⟩
  | cons s rest ih =>
    intro i hi
    have hb := mustStartNewPipeline_pos pkind i hi
    have := ih (i + 1) (by omega)
    simp [spineList, inputLeafList, hb, this.1, this.2]

theorem spineNodes_getLast (t : PlanNode) : (spineNodes t).getLast? = some t := by
  cases t with
  | mk nid kind cap srcs =>
    rw [spineNodes]
    simp

theorem self_mem_spineNodes (t : PlanNode) : t ∈ spineNodes t := by
  cases t with
  | mk nid kind cap srcs =>
    rw [spineNodes]
    simp

theorem spine_head_input (t : PlanNode) :
    ∃ n rest, spineNodes t = n :: rest ∧ hasInputLeaf t = n.sources.isEmpty := by
  cases t with
  | mk nid kind cap srcs =>
    cases srcs with
    | nil =>
      refine ⟨PlanNode.mk nid kind cap [], [], ?_, ?_⟩
      · rw [spineNodes]; rfl
      · simp [hasInputLeaf, PlanNode.sources]
    | cons s rest2 =>
      have htail := spineList_tail_nil kind rest2 1 le_rfl
      by_cases hb : mustStartNewPipeline kind 0 = true
      · refine ⟨PlanNode.mk nid kind cap (s :: rest2), [], ?_, ?_⟩
        · rw [spineNodes]
          simp [spineList, hb, htail.1]
        · simp [hasInputLeaf, inputLeafList, hb, htail.2, PlanNode.sources]
      · have hb2 : mustStartNewPipeline kind 0 = false := by simpa using hb
        obtain ⟨n, r, hspine, hflag⟩ := spine_head_input s
        refine ⟨n, r ++ [PlanNode.mk nid kind cap (s :: rest2)], ?_, ?_⟩
        · rw [spineNodes]
          simp [spineList, hb2, htail.1, hspine]
        · simp [hasInputLeaf, inputLeafList, hb2, htail.2, hflag]

mutual

theorem mem_branchDescriptors_shape (t : PlanNode) :
    ∀ f ∈ branchDescriptors t, ∃ u c, f = freshDescriptor u c := by
  cases t with
  | mk nid kind cap srcs =>
    simp only [branchDescriptors]
    exact mem_branchList_shape kind nid srcs 0

theorem mem_branchList_shape (pkind : NodeKind) (pid : Nat)
    (srcs : List PlanNode) (i : Nat) :
    ∀ f ∈ branchList pkind pid srcs i, ∃ u c, f = freshDescriptor u c := by
  cases srcs with
  | nil => intro f hf; simp [branchList] at hf
  | cons s rest =>
    intro f hf
    rw [branchList] at hf
    rcases List.mem_append.mp hf with h1 | h2
    · by_cases hb : mustStartNewPipeline pkind i = true
      · rw [if_pos hb] at h1
        rcases List.mem_cons.mp h1 with h3 | h4
        · exact ⟨s, makeConsumerSupplier pkind pid, h3⟩
        · exact mem_branchDescriptors_shape s f h4
      · rw [if_neg hb] at h1
        exact mem_branchDescriptors_shape s f h1
    · exact mem_branchList_shape pkind pid rest (i + 1) f h2

end

mutual

theorem branchDescriptors_length (t : PlanNode) :
    (branchDescriptors t).length = boundaryEdges t := by
  cases t with
  | mk nid kind cap srcs =>
    simp only [branchDescriptors, boundaryEdges]
    exact branchList_length kind nid srcs 0

theorem branchList_length (pkind : NodeKind) (pid : Nat)
    (srcs : List PlanNode) (i : Nat) :
    (branchList pkind pid srcs i).length = boundaryEdgesList pkind srcs i := by
  cases srcs with
  | nil => rfl
  | cons s rest =>
    have h1 := branchDescriptors_length s
    have h2 := branchList_length pkind pid rest (i + 1)
    simp only [branchList, boundaryEdgesList]
    split <;> (simp [h1, h2]; try omega)

end

theorem branchList_mem_boundary (pkind : NodeKind) (pid : Nat)
    (srcs : List PlanNode) :
    ∀ (i j : Nat) (h : j < srcs.length),
      mustStartNewPipeline pkind (i + j) = true →
      freshDescriptor (srcs.get ⟨j, h⟩) (makeConsumerSupplier pkind pid)
        ∈ branchList pkind pid srcs i := by
  induction srcs with
  | nil => intro i j h; simp at h
  | cons s rest ih =>
    intro i j h hb
    cases j with
    | zero =>
      have hb0 : mustStartNewPipeline pkind i = true := by simpa using hb
      simp only [branchList, List.get, if_pos hb0]
      exact List.mem_append_left _ (List.mem_cons_self _ _)
    | succ j2 =>
      have hb2 : mustStartNewPipeline pkind ((i + 1) + j2) = true := by
        have harith : (i + 1) + j2 = i + (j2 + 1) := by omega
        rw [harith]
        exact hb
      have hmem := ih (i + 1) j2 (by simpa using h) hb2
      simp only [branchList, List.get]
      exact List.mem_append_right _ hmem

theorem mem_treeNodesList (srcs : List PlanNode) (p : PlanNode) :
    p ∈ treeNodesList srcs ↔ ∃ s ∈ srcs, p ∈ treeNodes s := by
  induction srcs with
  | nil => simp [treeNodesList]
  | cons s rest ih => simp [treeNodesList, List.mem_append, ih]

mutual

theorem boundary_child_fresh (t : PlanNode) :
    ∀ p ∈ treeNodes t, ∀ (i : Nat) (h : i < p.sources.length),
      mustStartNewPipeline p.kind i = true →
      freshDescriptor (p.sources.get ⟨i, h⟩)
        (makeConsumerSupplier p.kind p.nid) ∈ branchDescriptors t := by
  cases t with
  | mk nid kind cap srcs =>
    intro p hp i h hb
    rcases List.mem_cons.mp (by simpa [treeNodes] using hp) with heq | h2
    · subst heq
      simp only [branchDescriptors]
      have hmem := branchList_mem_boundary kind nid srcs 0 i
        (by simpa [PlanNode.sources] using h) (by simpa [PlanNode.kind] using hb)
      simpa [PlanNode.sources, PlanNode.kind, PlanNode.nid] using hmem
    · simp only [branchDescriptors]
      exact boundary_child_fresh_list kind nid srcs 0 p h2 i h hb

theorem boundary_child_fresh_list (pkind : NodeKind) (pid : Nat)
    (srcs : List PlanNode) :
    ∀ (i : Nat), ∀ p ∈ treeNodesList srcs,
      ∀ (j : Nat) (h : j < p.sources.length),
      mustStartNewPipeline p.kind j = true →
      freshDescriptor (p.sources.get ⟨j, h⟩)
        (makeConsumerSupplier p.kind p.nid) ∈ branchList pkind pid srcs i := by
  cases srcs with
  | nil => intro i p hp; simp [treeNodesList] at hp
  | cons s rest =>
    intro i p hp j h hb
    rcases List.mem_append.mp (by simpa [treeNodesList] using hp) with h1 | h2
    · have hin := boundary_child_fresh s p h1 j h hb
      simp only [branchList]
      apply List.mem_append_left
      split
      · exact List.mem_cons_of_mem _ hin
      · exact hin
    · simp only [branchList]
      exact List.mem_append_right _
        (boundary_child_fresh_list pkind pid rest (i + 1) p h2 j h hb)

end

mutual

theorem spine_child_same (t : PlanNode) :
    ∀ (c : Option SupplierKind), ∀ p ∈ treeNodes t,
      ∀ (h : 0 < p.sources.length), mustStartNewPipeline p.kind 0 = false →
      ∃ f ∈ freshDescriptor t c :: branchDescriptors t,
        p ∈ f.planNodes ∧ p.sources.get ⟨0, h⟩ ∈ f.planNodes := by
  cases t with
  | mk nid kind cap srcs =>
    intro c p hp h hb
    rcases List.mem_cons.mp (by simpa [treeNodes] using hp) with heq | h2
    · subst heq
      cases srcs with
      | nil => simp [PlanNode.sources] at h
      | cons s rest =>
        have hb2 : mustStartNewPipeline kind 0 = false := by
          simpa [PlanNode.kind] using hb
        refine ⟨freshDescriptor (PlanNode.mk nid kind cap (s :: rest)) c,
          List.mem_cons_self _ _, ?_, ?_⟩
        · simpa [freshDescriptor] using
            self_mem_spineNodes (PlanNode.mk nid kind cap (s :: rest))
        · show (PlanNode.mk nid kind cap (s :: rest)).sources.get ⟨0, h⟩ ∈ _
          simp only [freshDescriptor, PlanNode.sources, List.get, spineNodes,
            spineList, hb2]
          exact List.mem_append_left _
            (List.mem_append_left _ (self_mem_spineNodes s))
    · have hlist := spine_child_same_list kind nid srcs 0 p h2 h hb
      rcases hlist with ⟨f, hf, hp1, hp2⟩ | ⟨hs1, hs2⟩
      · exact ⟨f, List.mem_cons_of_mem _ (by simpa [branchDescriptors] using hf),
          hp1, hp2⟩
      · refine ⟨freshDescriptor (PlanNode.mk nid kind cap srcs) c,
          List.mem_cons_self _ _, ?_, ?_⟩
        · simp only [freshDescriptor, spineNodes]
          exact List.mem_append_left _ hs1
        · simp only [freshDescriptor, spineNodes]
          exact List.mem_append_left _ hs2

theorem spine_child_same_list (pkind : NodeKind) (pid : Nat)
    (srcs : List PlanNode) :
    ∀ (i : Nat), ∀ p ∈ treeNodesList srcs,
      ∀ (h : 0 < p.sources.length), mustStartNewPipeline p.kind 0 = false →
      (∃ f ∈ branchList pkind pid srcs i,
          p ∈ f.planNodes ∧ p.sources.get ⟨0, h⟩ ∈ f.planNodes)
      ∨ (p ∈ spineList pkind srcs i ∧
          p.sources.get ⟨0, h⟩ ∈ spineList pkind srcs i) := by
  cases srcs with
  | nil => intro i p hp; simp [treeNodesList] at hp
  | cons s rest =>
    intro i p hp h hb
    rcases List.mem_append.mp (by simpa [treeNodesList] using hp) with h1 | h2
    · obtain ⟨f, hf, hp1, hp2⟩ :=
        spine_child_same s (makeConsumerSupplier pkind pid) p h1 h hb
      rcases List.mem_cons.mp hf with heqf | hf2
      · by_cases hbi : mustStartNewPipeline pkind i = true
        · left
          refine ⟨f, ?_, hp1, hp2⟩
          simp only [branchList, if_pos hbi]
          exact List.mem_append_left _ (heqf ▸ List.mem_cons_self _ _)
        · right
          have hbi2 : mustStartNewPipeline pkind i = false := by simpa using hbi
          subst heqf
          simp only [freshDescriptor] at hp1 hp2
          constructor
          · simp only [spineList, hbi2, if_false, Bool.false_eq_true]
            exact List.mem_append_left _ hp1
          · simp only [spineList, hbi2, if_false, Bool.false_eq_true]
            exact List.mem_append_left _ hp2
      · left
        refine ⟨f, ?_, hp1, hp2⟩
        simp only [branchList]
        apply List.mem_append_left
        split
        · exact List.mem_cons_of_mem _ hf2
        · exact hf2
    · rcases spine_child_same_list pkind pid rest (i + 1) p h2 h hb with
        ⟨f, hf, hp1, hp2⟩ | ⟨hs1, hs2⟩
      · left
        refine ⟨f, ?_, hp1, hp2⟩
        simp only [branchList]
        exact List.mem_append_right _ hf
      · right
        constructor
        · simp only [spineList]
          exact List.mem_append_right _ hs1
        · simp only [spineList]
          exact List.mem_append_right _ hs2

end

theorem transfer_mem (root : PlanNode) (c : Option SupplierKind)
    (f0 : DriverFactory)
    (hf : f0 ∈ freshDescriptor root c :: branchDescriptors root) :
    ∃ g ∈ ({ freshDescriptor root c with outputDriver := true }
        :: branchDescriptors root).map annotApply,
      g.planNodes = f0.planNodes ∧ g.consumerSupplier = f0.consumerSupplier := by
  rcases List.mem_cons.mp hf with heq | hmem
  · subst heq
    exact ⟨annotApply { freshDescriptor root c with outputDriver := true },
      List.mem_map_of_mem _ (List.mem_cons_self _ _), rfl, rfl⟩
  · exact ⟨annotApply f0,
      List.mem_map_of_mem _ (List.mem_cons_of_mem _ hmem), rfl, rfl⟩

/-- C2 counterexample: for the local-merge tree, the child at index 0 is
not planned into the parent's descriptor — no produced descriptor contains
both the local-merge node and its first child (the boundary policy forces a
new pipeline for every source of a local-merge node, index 0 included). -/
theorem c2_first_child_not_in_parent_descriptor_cex :
    (LocalPlanner.plan exTreeLM false).isSome = true ∧
      ¬ ∃ f ∈ (LocalPlanner.plan exTreeLM false).getD [],
          exTreeLM ∈ f.planNodes ∧ exValues1 ∈ f.planNodes := by decide

/-- C2 (amended): for every node of the tree and child index for which the
boundary policy answers false (only index 0 of a node that is neither
local-merge nor local-partition), parent and child end up in the same
descriptor's node list; for every child index for which it answers true
(index > 0, or any index of a local-merge / local-partition node), the
child is the last node of a descriptor of its own, wired with the consumer
supplier derived from the parent. -/
theorem c2_child_pipeline_assignment (root : PlanNode) (hc : Bool)
    (out : List DriverFactory) (h : LocalPlanner.plan root hc = some out)
    (p : PlanNode) (hp : p ∈ treeNodes root) (i : Nat)
    (hi : i < p.sources.length) :
    (mustStartNewPipeline p.kind i = false →
      ∃ f ∈ out, p ∈ f.planNodes ∧ p.sources.get ⟨i, hi⟩ ∈ f.planNodes)
    ∧ (mustStartNewPipeline p.kind i = true →
      ∃ f ∈ out, f.planNodes.getLast? = some (p.sources.get ⟨i, hi⟩) ∧
        f.consumerSupplier = makeConsumerSupplier p.kind p.nid) := by
  have he := localPlanner_plan_eq root hc out h
  subst he
  constructor
  · intro hb
    have hi0 : i = 0 := mustStartNewPipeline_false_idx p.kind i hb
    subst hi0
    obtain ⟨f, hf, h1, h2⟩ :=
      spine_child_same root (makeConsumerSupplierExternal hc) p hp hi hb
    obtain ⟨g, hg, hplan, _⟩ :=
      transfer_mem root (makeConsumerSupplierExternal hc) f hf
    exact ⟨g, hg, by rw [hplan]; exact h1, by rw [hplan]; exact h2⟩
  · intro hb
    have hfr := boundary_child_fresh root p hp i hi hb
    obtain ⟨g, hg, hplan, hcons⟩ :=
      transfer_mem root (makeConsumerSupplierExternal hc) _
        (List.mem_cons_of_mem _ hfr)
    refine ⟨g, hg, ?_, ?_⟩
    · rw [hplan]
      show (freshDescriptor _ _).planNodes.getLast? = _
      simp [freshDescriptor, spineNodes_getLast]
    · rw [hcons]
      rfl

/-- Witness for C2 (amended) at the hash-join tree: the build-side child
(index 1) heads its own descriptor ending in scan 32, wired with the
hash-build sink of join 30. -/
theorem c2_child_pipeline_assignment_witness :
    ∃ f ∈ exOutJoin,
      f.planNodes.getLast? = some (exTreeJoin.sources.get ⟨1, by decide⟩) ∧
      f.consumerSupplier = makeConsumerSupplier exTreeJoin.kind exTreeJoin.nid :=
  (c2_child_pipeline_assignment exTreeJoin true exOutJoin (by decide)
    exTreeJoin (by decide) 1 (by decide)).2 (by decide)

/-- C4: a successful top-level compile produces exactly one descriptor per
boundary-forcing edge, plus one for the root spine. -/
theorem c4_descriptor_count (root : PlanNode) (hc : Bool)
    (out : List DriverFactory) (h : LocalPlanner.plan root hc = some out) :
    out.length = boundaryEdges root + 1 := by
  rw [localPlanner_plan_eq root hc out h]
  simp [branchDescriptors_length]

/-- Witness for C4 at the local-merge tree (two boundary edges). -/
theorem c4_descriptor_count_witness : exOutLM.length = boundaryEdges exTreeLM + 1 :=
  c4_descriptor_count exTreeLM false exOutLM (by decide)

/-- C5: after a successful top-level compile, the descriptor list starts
with the one descriptor whose `outputDriver` flag is set, and every other
descriptor has it unset. -/
theorem c5_unique_output_descriptor (root : PlanNode) (hc : Bool)
    (out : List DriverFactory) (h : LocalPlanner.plan root hc = some out) :
    ∃ F rest, out = F :: rest ∧ F.outputDriver = true ∧
      ∀ f ∈ rest, f.outputDriver = false := by
  have he := localPlanner_plan_eq root hc out h
  refine ⟨annotApply { freshDescriptor root (makeConsumerSupplierExternal hc) with
      outputDriver := true }, (branchDescriptors root).map annotApply,
    by simpa using he, rfl, ?_⟩
  intro f hf
  obtain ⟨b, hb, hgb⟩ := List.mem_map.mp hf
  obtain ⟨u, c, hu⟩ := mem_branchDescriptors_shape root b hb
  rw [← hgb, hu]
  rfl

/-- Witness for C5 at the local-merge tree. -/
theorem c5_unique_output_descriptor_witness :
    ∃ F rest, exOutLM = F :: rest ∧ F.outputDriver = true ∧
      ∀ f ∈ rest, f.outputDriver = false :=
  c5_unique_output_descriptor exTreeLM false exOutLM (by decide)

/-- C6: every produced descriptor has a nonempty node list, and its
`inputDriver` flag is set exactly when the first node of that list declares
zero child sources. -/
theorem c6_input_flag_iff_leaf_head (root : PlanNode) (hc : Bool)
    (out : List DriverFactory) (h : LocalPlanner.plan root hc = some out) :
    ∀ f ∈ out, ∃ n rest, f.planNodes = n :: rest ∧
      (f.inputDriver = true ↔ n.sources = []) := by
  have he := localPlanner_plan_eq root hc out h
  subst he
  intro f hf
  rw [List.map_cons] at hf
  rcases List.mem_cons.mp hf with heq | hmem
  · obtain ⟨n, r, hs, hflag⟩ := spine_head_input root
    subst heq
    refine ⟨n, r, by simpa [annotApply, freshDescriptor] using hs, ?_⟩
    have : (annotApply { freshDescriptor root (makeConsumerSupplierExternal hc) with
        outputDriver := true }).inputDriver = hasInputLeaf root := rfl
    rw [this, hflag, List.isEmpty_iff]
  · obtain ⟨b, hb, hgb⟩ := List.mem_map.mp hmem
    obtain ⟨u, c, hu⟩ := mem_branchDescriptors_shape root b hb
    obtain ⟨n, r, hs, hflag⟩ := spine_head_input u
    refine ⟨n, r, ?_, ?_⟩
    · rw [← hgb, hu]
      simpa [annotApply, freshDescriptor] using hs
    · rw [← hgb, hu]
      have h2 : (annotApply (freshDescriptor u c)).inputDriver = hasInputLeaf u := rfl
      rw [h2, hflag, List.isEmpty_iff]

/-- Witness for C6: the input flags of the first two descriptors of the
local-merge plan (the local-merge spine is not an input pipeline, the
values pipeline is). -/
theorem c6_input_flag_iff_leaf_head_witness :
    ∃ n rest, (exOutLM.getD 0 (initDescriptor none)).planNodes = n :: rest ∧
      ((exOutLM.getD 0 (initDescriptor none)).inputDriver = true ↔
        n.sources = []) :=
  c6_input_flag_iff_leaf_head exTreeLM false exOutLM (by decide)
    (exOutLM.getD 0 (initDescriptor none)) (by decide)

/-- C1: for every pipeline descriptor whose consulted (non-special) nodes
declare only caps in `[1, UINT32MAX]` (the range `uint32_t` guarantees and
the fatal zero-check enforces), the computed `detail::maxDrivers` is 1
whenever the node list contains a final/single aggregation, a non-partial
top-N / limit / order-by, a non-parallelizable values node, a local-merge,
a merge-exchange, a table-write without multi-threading support, or a
remaining node whose declared cap is 1; otherwise it is the minimum of the
remaining nodes' declared caps, or the unbounded sentinel if none. -/
theorem c1_maxDrivers_matches_spec (nodes : List PlanNode)
    (hvalid : ∀ n ∈ nodes, specialNode n = false →
      1 ≤ n.cap.getD 1 ∧ n.cap.getD 1 ≤ UINT32MAX) :
    detail.maxDrivers nodes = some (specMaxDrivers nodes) := by
  have h1 : ∀ n ∈ nodes, specialNode n = false → ∀ r, n.cap = some r → 1 ≤ r := by
    intro n hn hs r hc
    have := (hvalid n hn hs).1
    rw [hc] at this
    simpa using this
  rw [detail.maxDrivers, stepMax_eq_spec nodes UINT32MAX h1, specMaxDrivers]
  congr 1
  split
  · rfl
  · apply foldl_min_from_sentinel
    intro x hx
    obtain ⟨n, hn, hs, hc⟩ := mem_declaredCaps nodes x hx
    have := (hvalid n hn hs).2
    rw [hc] at this
    simpa using this

/-- Witness for C1 at the pipeline `[scan cap 5, filter cap 3]`. -/
theorem c1_maxDrivers_matches_spec_witness :
    detail.maxDrivers [exScanCap5, exFilterCap3] =
      some (specMaxDrivers [exScanCap5, exFilterCap3]) :=
  c1_maxDrivers_matches_spec [exScanCap5, exFilterCap3] (by decide)

/-- C9 counterexample: a node list that contains a node declaring cap 0 on
which the analysis nevertheless returns normally (with value 1), because a
final aggregation earlier in the list short-circuits the scan before the
zero cap is ever consulted. -/
theorem c9_zero_cap_counterexample :
    (∃ n ∈ [exAggFinal, exScanCap0], n.cap = some 0) ∧
      detail.maxDrivers [exAggFinal, exScanCap0] = some 1 := by decide

/-- C9 (amended): the fatal zero-cap check fires only when the scan actually
reaches the zero-cap node, i.e. when a non-special node with cap 0 appears
before any node that makes the scan return; and whenever `detail::maxDrivers`
does return a value, that value is at least 1. -/
theorem c9_zero_cap_fatal_and_result_positive :
    (∀ (pre post : List PlanNode) (z : PlanNode),
        (∀ m ∈ pre, stopsEarly m = false) → specialNode z = false →
        z.cap = some 0 → detail.maxDrivers (pre ++ z :: post) = none)
    ∧ (∀ (nodes : List PlanNode) (r : Nat),
        detail.maxDrivers nodes = some r → 1 ≤ r) := by
  constructor
  · intro pre post z hpre hz hcap
    exact stepMax_hits_zero pre UINT32MAX hpre z post hz hcap
  · intro nodes r h
    exact stepMax_ge_one nodes UINT32MAX r (by decide) h

/-- Witness for C9 (amended): `[scan cap 5, scan cap 0]` aborts, and the
returned ceiling for `[scan cap 5]` is positive. -/
theorem c9_zero_cap_fatal_and_result_positive_witness :
    detail.maxDrivers ([exScanCap5] ++ exScanCap0 :: []) = none ∧ 1 ≤ 5 :=
  ⟨c9_zero_cap_fatal_and_result_positive.1 [exScanCap5] [] exScanCap0
      (by decide) (by decide) (by decide),
    c9_zero_cap_fatal_and_result_positive.2 [exScanCap5] 5 (by decide)⟩

/-- C10: a node of one of the specially handled kinds that does not trigger
the force-to-1 condition contributes nothing to the analysis — deleting it
from the node list leaves `detail::maxDrivers` unchanged, whatever cap it
declares. -/
theorem c10_special_node_cap_never_consulted (xs ys : List PlanNode)
    (n : PlanNode) (h1 : specialNode n = true) (h2 : forcesOne n = false) :
    detail.maxDrivers (xs ++ n :: ys) = detail.maxDrivers (xs ++ ys) :=
  stepMax_skip_special n h1 h2 xs UINT32MAX ys

/-- Witness for C10: a partial top-N declaring cap 7 leaves the ceiling of
`[scan cap 5]` untouched. -/
theorem c10_special_node_cap_never_consulted_witness :
    detail.maxDrivers ([] ++ exTopNPartCap7 :: [exScanCap5]) =
      detail.maxDrivers ([] ++ [exScanCap5]) :=
  c10_special_node_cap_never_consulted [] [exScanCap5] exTopNPartCap7
    (by decide) (by decide)

/-- C3 (code bug): in `DriverFactory::createDriver` the merge-exchange
branch passes the raw loop index `i` to the `MergeExchange` constructor
instead of `id = operators.size()`, contradicting the loop's own comment;
on the descriptor `[Filter, Project, MergeExchange]` the fused
filter-project gets id 0 but the second constructed operator gets id 2, so
identifiers are not dense in post-fusion construction order. -/
theorem c3_merge_exchange_id_not_dense :
    (DriverFactory.createDriver
        { planNodes := [PlanNode.mk 10 .filter none [],
            PlanNode.mk 11 .project none [], PlanNode.mk 12 .mergeExchange none []] }
        ⟨0, 0⟩ false (fun _ => 1)).map Operator.opid = [0, 2] := by decide

/-- C7: a filter immediately followed by a project fuses into one combined
filter-project operator (skipping the project); a lone filter yields one
filter-project with a null projection; a project not consumed by a
preceding filter yields one filter-project with a null filter; and the
descriptor `[Scan, Filter]` instantiates to exactly two operators, the
filter contributing a single filter-project with null projection. -/
theorem c7_filter_project_fusion (ctx : DriverCtx) (hec : Bool)
    (nd : Nat → Nat) :
    (∀ (fn pn : PlanNode) (rest : List PlanNode) (i : Nat) (ops : List Operator),
        fn.kind = .filter → pn.kind = .project →
        buildOps ctx hec nd (fn :: pn :: rest) i ops =
          buildOps ctx hec nd rest (i + 2)
            (ops ++ [⟨ops.length, .filterProject (some fn.nid) (some pn.nid)⟩]))
    ∧ (∀ (fn : PlanNode) (rest : List PlanNode) (i : Nat) (ops : List Operator),
        fn.kind = .filter →
        (∀ next ∈ rest.head?, next.kind ≠ .project) →
        buildOps ctx hec nd (fn :: rest) i ops =
          buildOps ctx hec nd rest (i + 1)
            (ops ++ [⟨ops.length, .filterProject (some fn.nid) none⟩]))
    ∧ (∀ (pn : PlanNode) (rest : List PlanNode) (i : Nat) (ops : List Operator),
        pn.kind = .project →
        buildOps ctx hec nd (pn :: rest) i ops =
          buildOps ctx hec nd rest (i + 1)
            (ops ++ [⟨ops.length, .filterProject none (some pn.nid)⟩]))
    ∧ DriverFactory.createDriver
          { planNodes := [PlanNode.mk 13 .tableScan none [],
              PlanNode.mk 10 .filter none []] } ⟨0, 0⟩ false (fun _ => 1) =
        [⟨0, .tableScanOp 13⟩, ⟨1, .filterProject (some 10) none⟩] := by
  refine ⟨?_, ?_, ?_, by decide⟩
  · intro fn pn rest i ops hf hp
    obtain ⟨a, ka, ca, sa⟩ := fn
    obtain ⟨b, kb, cb, sb⟩ := pn
    simp only [PlanNode.kind] at hf hp
    subst hf; subst hp
    simp [buildOps, PlanNode.nid]
  · intro fn rest i ops hf hnext
    obtain ⟨a, ka, ca, sa⟩ := fn
    simp only [PlanNode.kind] at hf
    subst hf
    cases rest with
    | nil => simp [buildOps, PlanNode.nid]
    | cons next rest2 =>
      obtain ⟨b, kb, cb, sb⟩ := next
      have hk : kb ≠ NodeKind.project := by
        have := hnext (PlanNode.mk b kb cb sb) (by simp)
        simpa [PlanNode.kind] using this
      cases kb <;> (simp [buildOps, PlanNode.nid]; try simp at hk)
  · intro pn rest i ops hp
    obtain ⟨a, ka, ca, sa⟩ := pn
    simp only [PlanNode.kind] at hp
    subst hp
    simp [buildOps, PlanNode.nid]

/-- Witness for C7 at concrete nodes: fusion of filter 10 with project 11,
a lone filter 10, and a lone project 11, each starting from empty state. -/
theorem c7_filter_project_fusion_witness :
    (buildOps ⟨0, 0⟩ false (fun _ => 1)
        [PlanNode.mk 10 .filter none [], PlanNode.mk 11 .project none []] 0 [] =
      buildOps ⟨0, 0⟩ false (fun _ => 1) [] 2
        [⟨0, .filterProject (some 10) (some 11)⟩])
    ∧ (buildOps ⟨0, 0⟩ false (fun _ => 1) [PlanNode.mk 10 .filter none []] 0 [] =
      buildOps ⟨0, 0⟩ false (fun _ => 1) [] 1 [⟨0, .filterProject (some 10) none⟩])
    ∧ (buildOps ⟨0, 0⟩ false (fun _ => 1) [PlanNode.mk 11 .project none []] 0 [] =
      buildOps ⟨0, 0⟩ false (fun _ => 1) [] 1 [⟨0, .filterProject none (some 11)⟩]) :=
  ⟨(c7_filter_project_fusion ⟨0, 0⟩ false (fun _ => 1)).1
      (PlanNode.mk 10 .filter none []) (PlanNode.mk 11 .project none []) [] 0 []
      rfl rfl,
    (c7_filter_project_fusion ⟨0, 0⟩ false (fun _ => 1)).2.1
      (PlanNode.mk 10 .filter none []) [] 0 [] rfl (by simp),
    (c7_filter_project_fusion ⟨0, 0⟩ false (fun _ => 1)).2.2.1
      (PlanNode.mk 11 .project none []) [] 0 [] rfl⟩

/-- C8: `detail::makeConsumerSupplier(planNode)` returns, by parent kind:
the local-merge callback sink, the local-partition operator, the hash-build
sink, the cross-join-build sink, the merge-join callback sink keyed by the
node's id, and no supplier for every other kind. -/
theorem c8_consumer_supplier_dispatch (n : PlanNode) :
    (n.kind = .localMerge →
      makeConsumerSupplier n.kind n.nid = some SupplierKind.localMergeSink)
    ∧ (n.kind = .localPartition →
      makeConsumerSupplier n.kind n.nid =
        some (SupplierKind.localPartitionOperator n.nid))
    ∧ (n.kind = .hashJoin →
      makeConsumerSupplier n.kind n.nid = some (SupplierKind.hashBuild n.nid))
    ∧ (n.kind = .crossJoin →
      makeConsumerSupplier n.kind n.nid = some (SupplierKind.crossJoinBuild n.nid))
    ∧ (n.kind = .mergeJoin →
      makeConsumerSupplier n.kind n.nid = some (SupplierKind.mergeJoinSink n.nid))
    ∧ (n.kind ≠ .localMerge → n.kind ≠ .localPartition → n.kind ≠ .hashJoin →
      n.kind ≠ .crossJoin → n.kind ≠ .mergeJoin →
      makeConsumerSupplier n.kind n.nid = none) := by
  obtain ⟨i, k, c, s⟩ := n
  cases k <;> simp [makeConsumerSupplier, PlanNode.kind, PlanNode.nid]

/-- Witness for C8: the hash-join parent with id 30 yields the hash-build
sink, and a filter parent yields no supplier. -/
theorem c8_consumer_supplier_dispatch_witness :
    makeConsumerSupplier NodeKind.hashJoin 30 = some (SupplierKind.hashBuild 30)
    ∧ makeConsumerSupplier NodeKind.filter 31 = none :=
  ⟨(c8_consumer_supplier_dispatch (PlanNode.mk 30 .hashJoin none [])).2.2.1 rfl,
    (c8_consumer_supplier_dispatch (PlanNode.mk 31 .filter none [])).2.2.2.2.2
      (by decide) (by decide) (by decide) (by decide) (by decide)⟩
